import Mathlib

/-!
# Verification of the amp-wp stories-editor state fragment

Shallow embedding of the repository fragment consisting of
* the combined reducer (`animations`, `currentPage`, `blocks`) from
  `assets/src/stories-editor/.../index.js`, and
* the `withRightClickHandler` higher-order component.

JavaScript values are modelled as follows: possibly-`undefined` strings
become `Option String`, possibly-`undefined` numbers become `Option Int`,
JS object maps keyed by strings become association lists
(`List (String × _)`) with the JS property-update discipline (an existing
key keeps its position, a new key is appended), JS arrays become `List`,
and a thrown `TypeError` becomes `Except.error ()`.
-/

set_option maxHeartbeats 1000000

namespace AmpStories

/-- Animation status tags.  Modelled from the spec: the `ANIMATION_STATUS`
constants live in `constants.js`, which is not part of this fragment; the
spec gives exactly three distinct tags `prepared`, `playing`, `stopped`. -/
inductive AnimationStatus
  | playing
  | prepared
  | stopped
deriving DecidableEq

/-- One animation entry of a page, as built by the reducer:
`{ id, parent, animationType, duration, delay, status }`, where an absent
field is `none` (JS `undefined`). -/
structure AnimationEntry where
  id : Option String := none
  parent : Option String := none
  animationType : Option String := none
  duration : Option Int := none
  delay : Option Int := none
  status : Option AnimationStatus := none
deriving DecidableEq

/-- The `animationOrder` object: pages (string keys) to entry arrays. -/
abbrev PageMap := List (String × List AnimationEntry)

/-- State of the `animations` reducer slice: `{ animationOrder }`. -/
structure AnimState where
  animationOrder : PageMap := []
deriving DecidableEq

/-- JS object-key coercion: `obj[undefined]` reads property `"undefined"`. -/
def jsKey : Option String → String
  | none => "undefined"
  | some s => s

/-- JS property read with default: `animationOrder[ page ] || []`. -/
def getPage : PageMap → String → List AnimationEntry
  | [], _ => []
  | kv :: rest, p => if kv.1 = p then kv.2 else getPage rest p

/-- JS property update `{ ...animationOrder, [ page ]: v }`: an existing key
keeps its position with the new value, a new key is appended at the end. -/
def setPage : PageMap → String → List AnimationEntry → PageMap
  | [], p, v => [(p, v)]
  | kv :: rest, p, v => if kv.1 = p then (p, v) :: rest else kv :: setPage rest p v

/-- JS `Array.prototype.findIndex` specialised to
`( { id } ) => id === entry`; JS `-1` is modelled as `none`. -/
def entryIdx : List AnimationEntry → Option String → Option Nat
  | [], _ => none
  | e :: rest, t => if e.id = t then some 0 else (entryIdx rest t).map (· + 1)

/-- In-place update of the element at an index (`arr[ i ].f = v`);
out-of-range indices leave the array unchanged. -/
def modifyAt : List AnimationEntry → Nat → (AnimationEntry → AnimationEntry) → List AnimationEntry
  | [], _, _ => []
  | e :: rest, 0, f => f e :: rest
  | e :: rest, n + 1, f => e :: modifyAt rest n f

/-- JS falsiness of a possibly-`undefined` string (`undefined` and `""`). -/
def jsFalsyStr (a : Option String) : Bool :=
  decide (a = none) || decide (a = some "")

/-- JS truthiness of a possibly-`undefined` string. -/
def jsTruthyStr (a : Option String) : Bool :=
  ! jsFalsyStr a

/-- An action object as dispatched into the reducers.  Fields not carried
by a given action are `none` / the JS-default value. -/
structure Action where
  type : String
  page : Option String := none
  item : Option String := none
  predecessor : Option String := none
  animationType : Option String := none
  duration : Option Int := none
  delay : Option Int := none
  order : Option (List String) := none
  index : Int := 0
deriving DecidableEq

/-- Modelled from the spec: `isValidAnimationPredecessor` lives in
`selectors.js`, which is not part of this fragment.  Per the spec,
"predecessor references, when present, must point to another entry in the
same page's sequence (enforced by a validity check before assignment)":
the predecessor is valid iff it is present, differs from the item itself,
and is the id of an entry already in the page's sequence. -/
def isValidAnimationPredecessor (s : AnimState) (page : String)
    (item predecessor : Option String) : Bool :=
  match predecessor with
  | none => false
  | some _ =>
    decide (predecessor ≠ item) &&
      (getPage s.animationOrder page).any (fun e => decide (e.id = predecessor))

/-- The body of the buggy successor loop of `CHANGE_ANIMATION_TYPE`:
`for ( const successor in itemSuccessors )` iterates the *index keys*
`"0", "1", …` of the array; for each key, if some entry's id equals that
key string, its `parent` is assigned `itemPredecessor.parent` — which is
`undefined` when `itemPredecessor` is a string, and a thrown `TypeError`
when `itemPredecessor` is itself `undefined`. -/
def successorLoop (itemPredecessor : Option String) :
    List (Option String) → List AnimationEntry → Except Unit (List AnimationEntry)
  | [], acc => Except.ok acc
  | key :: rest, acc =>
    match entryIdx acc key with
    | some j =>
      match itemPredecessor with
      | some _ =>
        successorLoop itemPredecessor rest (modifyAt acc j (fun e => { e with parent := none }))
      | none => Except.error ()
    | none => successorLoop itemPredecessor rest acc

/-- The `animations` reducer.  A thrown `TypeError` is `Except.error ()`. -/
def animations (state : AnimState) (action : Action) : Except Unit AnimState :=
  let animationOrder := state.animationOrder
  let page := jsKey action.page
  let item := action.item
  let pageAnimationOrder := getPage animationOrder page
  if action.type = "ADD_ANIMATION" then
    let parent :=
      if isValidAnimationPredecessor state page item action.predecessor
      then action.predecessor else none
    let newOrder :=
      match entryIdx pageAnimationOrder item with
      | some i => modifyAt pageAnimationOrder i (fun e => { e with parent := parent })
      | none => pageAnimationOrder ++ [{ id := item, parent := parent }]
    Except.ok { animationOrder := setPage animationOrder page newOrder }
  else if action.type = "CHANGE_ANIMATION_TYPE" then
    match entryIdx pageAnimationOrder item with
    | some i =>
      let pao1 :=
        modifyAt pageAnimationOrder i (fun e => { e with animationType := action.animationType })
      if jsFalsyStr action.animationType then
        match entryIdx pao1 item with
        | some i2 =>
          let itemPredecessor := (pao1.getD i2 {}).parent
          let itemSuccessors := pao1.filter (fun e => decide (e.parent = item))
          let keys := (List.range itemSuccessors.length).map (fun k => some (toString k))
          match successorLoop itemPredecessor keys pao1 with
          | Except.ok pao2 =>
            Except.ok { animationOrder := setPage animationOrder page pao2 }
          | Except.error u => Except.error u
        | none => Except.error ()
      else
        Except.ok { animationOrder := setPage animationOrder page pao1 }
    | none =>
      let newOrder := pageAnimationOrder ++ [{ id := item, animationType := action.animationType }]
      Except.ok { animationOrder := setPage animationOrder page newOrder }
  else if action.type = "CHANGE_ANIMATION_DURATION" then
    let newOrder :=
      match entryIdx pageAnimationOrder item with
      | some i => modifyAt pageAnimationOrder i (fun e => { e with duration := action.duration })
      | none => pageAnimationOrder
    Except.ok { animationOrder := setPage animationOrder page newOrder }
  else if action.type = "CHANGE_ANIMATION_DELAY" then
    let newOrder :=
      match entryIdx pageAnimationOrder item with
      | some i => modifyAt pageAnimationOrder i (fun e => { e with delay := action.delay })
      | none => pageAnimationOrder
    Except.ok { animationOrder := setPage animationOrder page newOrder }
  else if action.type = "PLAY_ANIMATION" then
    let newOrder :=
      if jsTruthyStr item then
        match entryIdx pageAnimationOrder item with
        | some i =>
          modifyAt pageAnimationOrder i (fun e => { e with status := some AnimationStatus.playing })
        | none => pageAnimationOrder
      else
        pageAnimationOrder.map (fun e =>
          { e with status := some (if e.parent = none
              then AnimationStatus.playing else AnimationStatus.prepared) })
    Except.ok { animationOrder := setPage animationOrder page newOrder }
  else if action.type = "STOP_ANIMATION" then
    let newOrder :=
      if jsTruthyStr item then
        match entryIdx pageAnimationOrder item with
        | some i =>
          modifyAt pageAnimationOrder i (fun e => { e with status := some AnimationStatus.stopped })
        | none => pageAnimationOrder
      else
        pageAnimationOrder.map (fun e => { e with status := some AnimationStatus.stopped })
    Except.ok { animationOrder := setPage animationOrder page newOrder }
  else
    Except.ok state

/-- The `currentPage` reducer. -/
def currentPage (state : Option String) (action : Action) : Option String :=
  if action.type = "SET_CURRENT_PAGE" then action.page else state

/-- State of the `blocks` reducer slice. -/
structure BlocksState where
  order : Option (List String) := none
  isReordering : Option Bool := none
deriving DecidableEq

/-- JS `Array.prototype.indexOf` on a string array (may be handed a
possibly-`undefined` needle); JS `-1` kept as `-1 : Int`. -/
def strIdx : List String → String → Option Nat
  | [], _ => none
  | y :: rest, x => if y = x then some 0 else (strIdx rest x).map (· + 1)

def jsIndexOf (l : List String) (x : Option String) : Int :=
  match x with
  | none => -1
  | some s =>
    match strIdx l s with
    | some i => (i : Int)
    | none => -1

/-- JS `splice` start-index clamping: negative indices count from the end
(clamped at 0), positive ones are clamped at the length. -/
def jsSpliceStart (len : Nat) (start : Int) : Nat :=
  if start < 0 then ((len : Int) + start).toNat else min start.toNat len

/-- `arr.splice( start, 1 )`: the removed elements and the remaining array. -/
def jsSpliceDeleteOne (l : List String) (start : Int) : List String × List String :=
  let s := jsSpliceStart l.length start
  ((l.drop s).take 1, l.take s ++ l.drop (s + 1))

/-- `arr.splice( start, 0, ...items )`: insertion at the clamped index. -/
def jsSpliceInsertList (l : List String) (start : Int) (items : List String) : List String :=
  let s := jsSpliceStart l.length start
  l.take s ++ items ++ l.drop s

/-- The `blocks` reducer.  `MOVE_PAGE` on a state without an `order` array
throws (`state.order.indexOf` on `undefined`), modelled as `Except.error`. -/
def blocks (state : BlocksState) (action : Action) : Except Unit BlocksState :=
  if action.type = "START_REORDERING" then
    Except.ok { state with order := action.order, isReordering := some true }
  else if action.type = "STOP_REORDERING" then
    Except.ok { state with isReordering := some false }
  else if action.type = "MOVE_PAGE" then
    match state.order with
    | none => Except.error ()
    | some ord =>
      let oldIndexAndRest := jsSpliceDeleteOne ord (jsIndexOf ord action.page)
      Except.ok { state with
        order := some (jsSpliceInsertList oldIndexAndRest.2 action.index oldIndexAndRest.1) }
  else if action.type = "RESET_ORDER" then
    Except.ok { state with order := action.order, isReordering := some false }
  else
    Except.ok state

/-- Result of rendering a block through the higher-order wrapper: either
the original edit component unchanged, or the edit component wrapped in a
`div` carrying the `onContextMenu` handler. -/
inductive Rendered
  | original
  | wrappedWithContextMenu
deriving DecidableEq

/-- The render decision of the `withRightClickHandler` higher-order
component (from `src/unnamed/part_000`), as a function of the block name,
the reordering flag, and the host-provided `ALLOWED_CHILD_BLOCKS` list. -/
def withRightClickHandler (allowedChildBlocks : List String) (name : String)
    (isReordering : Bool) : Rendered :=
  if ¬ (name = "amp/amp-story-page") ∧ ¬ (name ∈ allowedChildBlocks) then
    Rendered.original
  else if isReordering then
    Rendered.original
  else
    Rendered.wrappedWithContextMenu

/-! ## Basic lemmas about the embedded operations -/


lemma getPage_setPage (m : PageMap) (p q : String) (v : List AnimationEntry) :
    getPage (setPage m p v) q = if q = p then v else getPage m q := by
  induction m with
  | nil =>
    simp only [setPage, getPage]
    by_cases h : q = p
    · simp [h]
    · have hpq : ¬ p = q := fun hh => h hh.symm
      simp [h, hpq]
  | cons kv rest ih =>
    by_cases hk : kv.1 = p
    · by_cases hq : q = p
      · simp [setPage, getPage, hk, hq]
      · have hpq : ¬ p = q := fun hh => hq hh.symm
        simp [setPage, getPage, hk, hq, hpq]
    · by_cases hq : kv.1 = q
      · have : ¬ q = p := fun hh => hk (hq.trans hh)
        simp [setPage, getPage, hk, hq, this]
      · simp [setPage, getPage, hk, hq, ih]

lemma length_modifyAt (l : List AnimationEntry) (i : Nat) (f : AnimationEntry → AnimationEntry) :
    (modifyAt l i f).length = l.length := by
  induction l generalizing i with
  | nil => rfl
  | cons e rest ih =>
    cases i with
    | zero => rfl
    | succ n => simp [modifyAt, ih]

lemma map_modifyAt (l : List AnimationEntry) (i : Nat) (f : AnimationEntry → AnimationEntry)
    (g : AnimationEntry → Option String) (hf : ∀ e, g (f e) = g e) :
    (modifyAt l i f).map g = l.map g := by
  induction l generalizing i with
  | nil => rfl
  | cons e rest ih =>
    cases i with
    | zero => simp [modifyAt, hf]
    | succ n => simp [modifyAt, ih]

lemma mem_modifyAt {l : List AnimationEntry} {i : Nat} {f : AnimationEntry → AnimationEntry}
    {x : AnimationEntry} (hx : x ∈ modifyAt l i f) :
    x ∈ l ∨ ∃ h : i < l.length, x = f (l.get ⟨i, h⟩) := by
  induction l generalizing i with
  | nil => simp [modifyAt] at hx
  | cons e rest ih =>
    cases i with
    | zero =>
      rcases List.mem_cons.mp hx with h | h
      · exact Or.inr ⟨by simp, by simpa using h⟩
      · exact Or.inl (List.mem_cons_of_mem _ h)
    | succ n =>
      rcases List.mem_cons.mp hx with h | h
      · exact Or.inl (h ▸ List.mem_cons_self _ _)
      · rcases ih h with h' | ⟨hlt, hx'⟩
        · exact Or.inl (List.mem_cons_of_mem _ h')
        · exact Or.inr ⟨by simpa using Nat.succ_lt_succ hlt, by simpa using hx'⟩

lemma entryIdx_get {l : List AnimationEntry} {t : Option String} {i : Nat}
    (h : entryIdx l t = some i) :
    ∃ hlt : i < l.length, (l.get ⟨i, hlt⟩).id = t := by
  induction l generalizing i with
  | nil => simp [entryIdx] at h
  | cons e rest ih =>
    by_cases he : e.id = t
    · simp [entryIdx, he] at h
      exact ⟨by simp [← h], by simpa [← h] using he⟩
    · simp only [entryIdx, he, if_false, Option.map_eq_some'] at h
      rcases h with ⟨j, hj, hij⟩
      rcases ih hj with ⟨hlt, hid⟩
      exact ⟨by simpa [← hij] using Nat.succ_lt_succ hlt, by simpa [← hij] using hid⟩

lemma entryIdx_map_id_eq {l : List AnimationEntry} {f : AnimationEntry → AnimationEntry}
    (hf : ∀ e, (f e).id = e.id) (i : Nat) (t : Option String) :
    entryIdx (modifyAt l i f) t = entryIdx l t := by
  induction l generalizing i with
  | nil => rfl
  | cons e rest ih =>
    cases i with
    | zero => simp [modifyAt, entryIdx, hf]
    | succ n => simp [modifyAt, entryIdx, ih]

lemma getD_modifyAt_self {l : List AnimationEntry} {i : Nat}
    (f : AnimationEntry → AnimationEntry) (hlt : i < l.length) (d : AnimationEntry) :
    (modifyAt l i f).getD i d = f (l.getD i d) := by
  induction l generalizing i with
  | nil => simp at hlt
  | cons e rest ih =>
    cases i with
    | zero => simp [modifyAt]
    | succ n =>
      have hlt2 : n < rest.length := by
        simp only [List.length_cons] at hlt
        omega
      simpa [modifyAt] using ih hlt2

lemma entryIdx_append_of_none {l : List AnimationEntry} {t : Option String}
    (h : entryIdx l t = none) (e : AnimationEntry) (he : e.id = t) :
    entryIdx (l ++ [e]) t = some l.length := by
  induction l with
  | nil => simp [entryIdx, he]
  | cons a rest ih =>
    by_cases ha : a.id = t
    · simp [entryIdx, ha] at h
    · simp only [entryIdx, ha, if_false, Option.map_eq_none'] at h
      simp [entryIdx, ha, ih h]



/-! ## Claim theorems (first group) -/

/-- C6: for every action whose type is not among the recognized action
types of the respective reducer, `animations`, `currentPage` and `blocks`
all return the prior slice state unchanged. -/
theorem reducers_default_identity (a : Action) (sA : AnimState) (sC : Option String)
    (sB : BlocksState)
    (hA : a.type ∉ ["ADD_ANIMATION", "CHANGE_ANIMATION_TYPE", "CHANGE_ANIMATION_DURATION",
      "CHANGE_ANIMATION_DELAY", "PLAY_ANIMATION", "STOP_ANIMATION"])
    (hC : a.type ≠ "SET_CURRENT_PAGE")
    (hB : a.type ∉ ["START_REORDERING", "STOP_REORDERING", "MOVE_PAGE", "RESET_ORDER"]) :
    animations sA a = Except.ok sA ∧ currentPage sC a = sC ∧ blocks sB a = Except.ok sB := by
  simp only [List.mem_cons, List.not_mem_nil, or_false, not_or] at hA hB
  refine ⟨?_, ?_, ?_⟩
  · simp [animations, hA.1, hA.2.1, hA.2.2.1, hA.2.2.2.1, hA.2.2.2.2.1, hA.2.2.2.2.2]
  · simp [currentPage, hC]
  · simp [blocks, hB.1, hB.2.1, hB.2.2.1, hB.2.2.2]

theorem reducers_default_identity_witness :
    animations { animationOrder := [("p", [{ id := some "a" }])] } { type := "UNKNOWN_ACTION" } =
        Except.ok { animationOrder := [("p", [{ id := some "a" }])] } ∧
      currentPage (some "p") { type := "UNKNOWN_ACTION" } = some "p" ∧
      blocks { order := some ["a"] } { type := "UNKNOWN_ACTION" } =
        Except.ok { order := some ["a"] } :=
  reducers_default_identity _ _ _ _ (by decide) (by decide) (by decide)

/-- C9: the higher-order wrapper renders the original block edit component
for every block that is neither the page block nor an allowed child block,
and for every block while reordering is active; it wraps the edit component
with the context-menu handler exactly for page/allowed blocks outside
reordering mode. -/
theorem withRightClickHandler_renders (allowed : List String) (nm : String) (reorder : Bool) :
    ((¬ nm = "amp/amp-story-page" ∧ nm ∉ allowed) →
        withRightClickHandler allowed nm reorder = Rendered.original) ∧
      (reorder = true → withRightClickHandler allowed nm reorder = Rendered.original) ∧
      ((nm = "amp/amp-story-page" ∨ nm ∈ allowed) → reorder = false →
        withRightClickHandler allowed nm reorder = Rendered.wrappedWithContextMenu) := by
  unfold withRightClickHandler
  refine ⟨fun h => ?_, fun h => ?_, fun h hr => ?_⟩
  · simp [h.1, h.2]
  · subst h
    split
    · rfl
    · rfl
  · subst hr
    rcases h with h | h
    · simp [h]
    · simp [h]

theorem withRightClickHandler_renders_witness :
    withRightClickHandler ["amp/amp-story-text"] "core/paragraph" false = Rendered.original ∧
      withRightClickHandler ["amp/amp-story-text"] "amp/amp-story-page" true =
        Rendered.original ∧
      withRightClickHandler ["amp/amp-story-text"] "amp/amp-story-text" false =
        Rendered.wrappedWithContextMenu :=
  ⟨(withRightClickHandler_renders _ _ _).1 (by decide),
   (withRightClickHandler_renders _ _ _).2.1 rfl,
   (withRightClickHandler_renders _ _ _).2.2 (by decide) rfl⟩

/-- C1 (code bug): disabling the animation type of entry `a` on page `p`
(`CHANGE_ANIMATION_TYPE` with no `animationType`) does **not** re-parent
its successor `b` to `a`'s own predecessor: the successor loop iterates
the index keys of the successor array (`"0"`, …), finds no entry whose id
is such a key, and leaves `b.parent` pointing at `a`. -/
theorem changeAnimationType_does_not_reparent_successor :
    animations
        { animationOrder := [("p",
            [{ id := some "a", animationType := some "fade" },
             { id := some "b", parent := some "a", animationType := some "fade" }])] }
        { type := "CHANGE_ANIMATION_TYPE", page := some "p", item := some "a" } =
      Except.ok
        { animationOrder := [("p",
            [{ id := some "a" },
             { id := some "b", parent := some "a", animationType := some "fade" }])] } ∧
      ({ id := some "b", parent := some "a", animationType := some "fade" } :
          AnimationEntry).parent ≠ (none : Option String) :=
  ⟨rfl, by decide⟩

/-- C7 (counterexample): a `CHANGE_ANIMATION_TYPE` action whose item is
not in the page's sequence is not a silent no-op — it appends a new entry
to the page's animation sequence. -/
theorem changeAnimationType_missing_item_appends :
    animations { animationOrder := [] }
        { type := "CHANGE_ANIMATION_TYPE", page := some "p", item := some "x",
          animationType := some "fade" } =
      Except.ok { animationOrder :=
        [("p", [{ id := some "x", animationType := some "fade" }])] } ∧
      getPage [("p", [{ id := some "x", animationType := some "fade" }])] "p" ≠
        getPage ([] : PageMap) "p" :=
  ⟨rfl, by decide⟩

/-- C7 (amended): `CHANGE_ANIMATION_DURATION`, `CHANGE_ANIMATION_DELAY`,
targeted `PLAY_ANIMATION` and targeted `STOP_ANIMATION` with an item absent
from the page's sequence change no page's entries; `CHANGE_ANIMATION_TYPE`
with an absent item instead appends the entry `{ id, animationType }`:
entries are created on first reference by `ADD_ANIMATION` or by
`CHANGE_ANIMATION_TYPE`. -/
theorem animations_missing_item (s : AnimState) (a : Action)
    (hmiss : entryIdx (getPage s.animationOrder (jsKey a.page)) a.item = none) :
    ((a.type = "CHANGE_ANIMATION_DURATION" ∨ a.type = "CHANGE_ANIMATION_DELAY" ∨
        ((a.type = "PLAY_ANIMATION" ∨ a.type = "STOP_ANIMATION") ∧
          jsTruthyStr a.item = true)) →
      ∃ s', animations s a = Except.ok s' ∧
        ∀ q, getPage s'.animationOrder q = getPage s.animationOrder q) ∧
    (a.type = "CHANGE_ANIMATION_TYPE" →
      ∃ s', animations s a = Except.ok s' ∧
        getPage s'.animationOrder (jsKey a.page) =
          getPage s.animationOrder (jsKey a.page) ++
            [{ id := a.item, animationType := a.animationType }] ∧
        ∀ q, q ≠ jsKey a.page →
          getPage s'.animationOrder q = getPage s.animationOrder q) := by
  have frame : ∀ q, getPage (setPage s.animationOrder (jsKey a.page)
      (getPage s.animationOrder (jsKey a.page))) q = getPage s.animationOrder q := by
    intro q
    rw [getPage_setPage]
    split
    · next hq => rw [hq]
    · rfl
  constructor
  · rintro (h | h | ⟨(h | h), ht⟩)
    · exact ⟨⟨setPage s.animationOrder (jsKey a.page) (getPage s.animationOrder (jsKey a.page))⟩, by simp [animations, h, hmiss], frame⟩
    · exact ⟨⟨setPage s.animationOrder (jsKey a.page) (getPage s.animationOrder (jsKey a.page))⟩, by simp [animations, h, hmiss], frame⟩
    · exact ⟨⟨setPage s.animationOrder (jsKey a.page) (getPage s.animationOrder (jsKey a.page))⟩, by simp [animations, h, hmiss, ht], frame⟩
    · exact ⟨⟨setPage s.animationOrder (jsKey a.page) (getPage s.animationOrder (jsKey a.page))⟩, by simp [animations, h, hmiss, ht], frame⟩
  · intro h
    refine ⟨⟨setPage s.animationOrder (jsKey a.page) (getPage s.animationOrder (jsKey a.page) ++ [{ id := a.item, animationType := a.animationType }])⟩, by simp [animations, h, hmiss], ?_, fun q hq => ?_⟩
    · rw [getPage_setPage, if_pos rfl]
    · rw [getPage_setPage, if_neg hq]

theorem animations_missing_item_witness :
    (∃ s', animations { animationOrder := [] }
          { type := "CHANGE_ANIMATION_DURATION", page := some "p", item := some "x",
            duration := some 5 } = Except.ok s' ∧
        ∀ q, getPage s'.animationOrder q = getPage ([] : PageMap) q) ∧
      (∃ s', animations { animationOrder := [] }
          { type := "CHANGE_ANIMATION_TYPE", page := some "p", item := some "x",
            animationType := some "fade" } = Except.ok s' ∧
        getPage s'.animationOrder "p" =
          getPage ([] : PageMap) "p" ++
            [{ id := some "x", animationType := some "fade" }] ∧
        ∀ q, q ≠ "p" → getPage s'.animationOrder q = getPage ([] : PageMap) q) :=
  ⟨(animations_missing_item _ _ (by decide)).1 (Or.inl rfl),
   (animations_missing_item _ _ (by decide)).2 rfl⟩


/-- C2: a broadcast `PLAY_ANIMATION` (no item) sets the status of every
entry of the page with no predecessor to `playing` and of every other
entry to `prepared`; a broadcast `STOP_ANIMATION` sets every entry's
status to `stopped` regardless of its predecessor. -/
theorem animations_broadcast_play_stop (s : AnimState) (a : Action) (hitem : a.item = none) :
    (a.type = "PLAY_ANIMATION" →
      ∃ s', animations s a = Except.ok s' ∧
        getPage s'.animationOrder (jsKey a.page) =
          (getPage s.animationOrder (jsKey a.page)).map (fun e =>
            { e with status := some (if e.parent = none then AnimationStatus.playing
                else AnimationStatus.prepared) })) ∧
    (a.type = "STOP_ANIMATION" →
      ∃ s', animations s a = Except.ok s' ∧
        getPage s'.animationOrder (jsKey a.page) =
          (getPage s.animationOrder (jsKey a.page)).map (fun e =>
            { e with status := some AnimationStatus.stopped })) := by
  constructor
  · intro h
    exact ⟨⟨setPage s.animationOrder (jsKey a.page) ((getPage s.animationOrder (jsKey a.page)).map (fun e => { e with status := some (if e.parent = none then AnimationStatus.playing else AnimationStatus.prepared) }))⟩, by simp [animations, h, hitem, jsTruthyStr, jsFalsyStr], by rw [getPage_setPage, if_pos rfl]⟩
  · intro h
    exact ⟨⟨setPage s.animationOrder (jsKey a.page) ((getPage s.animationOrder (jsKey a.page)).map (fun e => { e with status := some AnimationStatus.stopped }))⟩, by simp [animations, h, hitem, jsTruthyStr, jsFalsyStr], by rw [getPage_setPage, if_pos rfl]⟩

theorem animations_broadcast_play_stop_witness :
    (∃ s', animations { animationOrder := [("p", [{ id := some "a" },
          { id := some "b", parent := some "a" }])] }
        { type := "PLAY_ANIMATION", page := some "p" } = Except.ok s' ∧
      getPage s'.animationOrder "p" =
        ([{ id := some "a" }, { id := some "b", parent := some "a" }] :
            List AnimationEntry).map (fun e =>
          { e with status := some (if e.parent = none then AnimationStatus.playing
              else AnimationStatus.prepared) })) ∧
    (∃ s', animations { animationOrder := [("p", [{ id := some "a" },
          { id := some "b", parent := some "a" }])] }
        { type := "STOP_ANIMATION", page := some "p" } = Except.ok s' ∧
      getPage s'.animationOrder "p" =
        ([{ id := some "a" }, { id := some "b", parent := some "a" }] :
            List AnimationEntry).map (fun e =>
          { e with status := some AnimationStatus.stopped })) :=
  ⟨(animations_broadcast_play_stop
      ⟨[("p", [{ id := some "a" }, { id := some "b", parent := some "a" }])]⟩
      { type := "PLAY_ANIMATION", page := some "p" } rfl).1 rfl,
   (animations_broadcast_play_stop
      ⟨[("p", [{ id := some "a" }, { id := some "b", parent := some "a" }])]⟩
      { type := "STOP_ANIMATION", page := some "p" } rfl).2 rfl⟩

/-- C3: `ADD_ANIMATION` appends exactly one new entry with the item's id
when the id is absent from the page's sequence; when the id is already
present it updates that entry's parent in place, and the length and the
list of identifiers of the sequence are unchanged. -/
theorem animations_add_entry (s : AnimState) (a : Action) (htype : a.type = "ADD_ANIMATION") :
    (entryIdx (getPage s.animationOrder (jsKey a.page)) a.item = none →
      ∃ s', animations s a = Except.ok s' ∧
        getPage s'.animationOrder (jsKey a.page) =
          getPage s.animationOrder (jsKey a.page) ++
            [{ id := a.item,
               parent := if isValidAnimationPredecessor s (jsKey a.page) a.item a.predecessor
                 then a.predecessor else none }]) ∧
    (∀ i, entryIdx (getPage s.animationOrder (jsKey a.page)) a.item = some i →
      ∃ s', animations s a = Except.ok s' ∧
        getPage s'.animationOrder (jsKey a.page) =
          modifyAt (getPage s.animationOrder (jsKey a.page)) i (fun e =>
            { e with
              parent := if isValidAnimationPredecessor s (jsKey a.page) a.item a.predecessor
                then a.predecessor else none }) ∧
        (getPage s'.animationOrder (jsKey a.page)).map (fun e => e.id) =
          (getPage s.animationOrder (jsKey a.page)).map (fun e => e.id) ∧
        (getPage s'.animationOrder (jsKey a.page)).length =
          (getPage s.animationOrder (jsKey a.page)).length) := by
  constructor
  · intro hmiss
    exact ⟨⟨setPage s.animationOrder (jsKey a.page) (getPage s.animationOrder (jsKey a.page) ++ [{ id := a.item, parent := if isValidAnimationPredecessor s (jsKey a.page) a.item a.predecessor then a.predecessor else none }])⟩, by simp [animations, htype, hmiss], by rw [getPage_setPage, if_pos rfl]⟩
  · intro i hfind
    refine ⟨⟨setPage s.animationOrder (jsKey a.page) (modifyAt (getPage s.animationOrder (jsKey a.page)) i (fun e => { e with parent := if isValidAnimationPredecessor s (jsKey a.page) a.item a.predecessor then a.predecessor else none }))⟩, by simp [animations, htype, hfind], ?_, ?_, ?_⟩
    · rw [getPage_setPage, if_pos rfl]
    · rw [getPage_setPage, if_pos rfl]
      exact map_modifyAt _ _ _ _ (fun e => rfl)
    · rw [getPage_setPage, if_pos rfl]
      exact length_modifyAt _ _ _

theorem animations_add_entry_witness :
    (∃ s', animations { animationOrder := [] }
        { type := "ADD_ANIMATION", page := some "p", item := some "x" } = Except.ok s' ∧
      getPage s'.animationOrder "p" =
        getPage ([] : PageMap) "p" ++
          [{ id := some "x",
             parent := if isValidAnimationPredecessor ⟨[]⟩ "p" (some "x") none
               then none else none }]) ∧
    (∃ s', animations { animationOrder := [("p", [{ id := some "x" }])] }
        { type := "ADD_ANIMATION", page := some "p", item := some "x" } = Except.ok s' ∧
      getPage s'.animationOrder "p" =
        modifyAt [{ id := some "x" }] 0 (fun e =>
          { e with
            parent := if isValidAnimationPredecessor ⟨[("p", [{ id := some "x" }])]⟩ "p"
                (some "x") none then none else none }) ∧
      (getPage s'.animationOrder "p").map (fun e => e.id) =
        ([{ id := some "x" }] : List AnimationEntry).map (fun e => e.id) ∧
      (getPage s'.animationOrder "p").length = ([{ id := some "x" }] : List AnimationEntry).length) :=
  ⟨(animations_add_entry ⟨[]⟩
      { type := "ADD_ANIMATION", page := some "p", item := some "x" } rfl).1 rfl,
   (animations_add_entry ⟨[("p", [{ id := some "x" }])]⟩
      { type := "ADD_ANIMATION", page := some "p", item := some "x" } rfl).2 0 rfl⟩

/-- C10: a `CHANGE_ANIMATION_DURATION`, `CHANGE_ANIMATION_DELAY`, targeted
`PLAY_ANIMATION` or targeted `STOP_ANIMATION` action whose item is present
at index `i` of the page's sequence rewrites exactly that entry's single
corresponding field (`duration`, `delay`, `status`), leaving the entry's
other fields, all other entries, and every other page unchanged. -/
theorem animations_targeted_field_update (s : AnimState) (a : Action) (i : Nat)
    (hfind : entryIdx (getPage s.animationOrder (jsKey a.page)) a.item = some i) :
    (a.type = "CHANGE_ANIMATION_DURATION" →
      ∃ s', animations s a = Except.ok s' ∧
        getPage s'.animationOrder (jsKey a.page) =
          modifyAt (getPage s.animationOrder (jsKey a.page)) i
            (fun e => { e with duration := a.duration }) ∧
        ∀ q, q ≠ jsKey a.page → getPage s'.animationOrder q = getPage s.animationOrder q) ∧
    (a.type = "CHANGE_ANIMATION_DELAY" →
      ∃ s', animations s a = Except.ok s' ∧
        getPage s'.animationOrder (jsKey a.page) =
          modifyAt (getPage s.animationOrder (jsKey a.page)) i
            (fun e => { e with delay := a.delay }) ∧
        ∀ q, q ≠ jsKey a.page → getPage s'.animationOrder q = getPage s.animationOrder q) ∧
    (a.type = "PLAY_ANIMATION" → jsTruthyStr a.item = true →
      ∃ s', animations s a = Except.ok s' ∧
        getPage s'.animationOrder (jsKey a.page) =
          modifyAt (getPage s.animationOrder (jsKey a.page)) i
            (fun e => { e with status := some AnimationStatus.playing }) ∧
        ∀ q, q ≠ jsKey a.page → getPage s'.animationOrder q = getPage s.animationOrder q) ∧
    (a.type = "STOP_ANIMATION" → jsTruthyStr a.item = true →
      ∃ s', animations s a = Except.ok s' ∧
        getPage s'.animationOrder (jsKey a.page) =
          modifyAt (getPage s.animationOrder (jsKey a.page)) i
            (fun e => { e with status := some AnimationStatus.stopped }) ∧
        ∀ q, q ≠ jsKey a.page → getPage s'.animationOrder q = getPage s.animationOrder q) := by
  have frame : ∀ v : List AnimationEntry, ∀ q, q ≠ jsKey a.page →
      getPage (setPage s.animationOrder (jsKey a.page) v) q = getPage s.animationOrder q := by
    intro v q hq
    rw [getPage_setPage, if_neg hq]
  refine ⟨fun h => ?_, fun h => ?_, fun h ht => ?_, fun h ht => ?_⟩
  · exact ⟨⟨setPage s.animationOrder (jsKey a.page) (modifyAt (getPage s.animationOrder (jsKey a.page)) i (fun e => { e with duration := a.duration }))⟩, by simp [animations, h, hfind], by rw [getPage_setPage, if_pos rfl], frame _⟩
  · exact ⟨⟨setPage s.animationOrder (jsKey a.page) (modifyAt (getPage s.animationOrder (jsKey a.page)) i (fun e => { e with delay := a.delay }))⟩, by simp [animations, h, hfind], by rw [getPage_setPage, if_pos rfl], frame _⟩
  · exact ⟨⟨setPage s.animationOrder (jsKey a.page) (modifyAt (getPage s.animationOrder (jsKey a.page)) i (fun e => { e with status := some AnimationStatus.playing }))⟩, by simp [animations, h, hfind, ht], by rw [getPage_setPage, if_pos rfl], frame _⟩
  · exact ⟨⟨setPage s.animationOrder (jsKey a.page) (modifyAt (getPage s.animationOrder (jsKey a.page)) i (fun e => { e with status := some AnimationStatus.stopped }))⟩, by simp [animations, h, hfind, ht], by rw [getPage_setPage, if_pos rfl], frame _⟩

theorem animations_targeted_field_update_witness :
    (∃ s', animations { animationOrder := [("p", [{ id := some "x" }]), ("q", [])] }
        { type := "CHANGE_ANIMATION_DURATION", page := some "p", item := some "x",
          duration := some 7 } = Except.ok s' ∧
      getPage s'.animationOrder "p" =
        modifyAt [{ id := some "x" }] 0 (fun e => { e with duration := some 7 }) ∧
      ∀ q, q ≠ "p" → getPage s'.animationOrder q =
        getPage [("p", [{ id := some "x" }]), ("q", [])] q) ∧
    (∃ s', animations { animationOrder := [("p", [{ id := some "x" }]), ("q", [])] }
        { type := "STOP_ANIMATION", page := some "p", item := some "x" } = Except.ok s' ∧
      getPage s'.animationOrder "p" =
        modifyAt [{ id := some "x" }] 0 (fun e =>
          { e with status := some AnimationStatus.stopped }) ∧
      ∀ q, q ≠ "p" → getPage s'.animationOrder q =
        getPage [("p", [{ id := some "x" }]), ("q", [])] q) :=
  ⟨(animations_targeted_field_update ⟨[("p", [{ id := some "x" }]), ("q", [])]⟩
      { type := "CHANGE_ANIMATION_DURATION", page := some "p", item := some "x",
        duration := some 7 } 0 rfl).1 rfl,
   (animations_targeted_field_update ⟨[("p", [{ id := some "x" }]), ("q", [])]⟩
      { type := "STOP_ANIMATION", page := some "p", item := some "x" } 0 rfl).2.2.2 rfl rfl⟩


/-! ## Lemmas for the `blocks` reducer -/

/-- Insertion of one element at a (pre-clamped) index. -/
def insertAt (l : List String) (i : Nat) (x : String) : List String :=
  l.take i ++ x :: l.drop i

lemma jsSpliceStart_le (len : Nat) (start : Int) : jsSpliceStart len start ≤ len := by
  unfold jsSpliceStart
  split <;> omega

lemma length_insertAt (l : List String) (i : Nat) (x : String) (h : i ≤ l.length) :
    (insertAt l i x).length = l.length + 1 := by
  simp [insertAt]
  omega

lemma mem_insertAt (l : List String) (i : Nat) (x y : String) :
    y ∈ insertAt l i x ↔ y = x ∨ y ∈ l := by
  have hl : y ∈ l ↔ y ∈ l.take i ++ l.drop i := by rw [List.take_append_drop]
  rw [hl]
  simp only [insertAt, List.mem_append, List.mem_cons]
  tauto

lemma strIdx_mem {l : List String} {x : String} (h : x ∈ l) :
    ∃ i, strIdx l x = some i ∧ ∃ hlt : i < l.length, l.get ⟨i, hlt⟩ = x := by
  induction l with
  | nil => simp at h
  | cons y rest ih =>
    by_cases hy : y = x
    · exact ⟨0, by simp [strIdx, hy], by simp, hy⟩
    · have hx : x ∈ rest := by
        rcases List.mem_cons.mp h with h' | h'
        · exact absurd h'.symm hy
        · exact h'
      rcases ih hx with ⟨j, hj, hlt, hget⟩
      exact ⟨j + 1, by simp [strIdx, hy, hj], by simpa using Nat.succ_lt_succ hlt,
        by simpa using hget⟩

/-- C4: `MOVE_PAGE` on an order containing the page returns an order of
the same length with the same members, obtained by deleting the page's
occurrence and re-inserting the page at another position — so exactly one
element is relocated and the relative order of all other elements is
preserved. -/
theorem blocks_move_page (s : BlocksState) (a : Action) (ord : List String) (p : String)
    (htype : a.type = "MOVE_PAGE") (hord : s.order = some ord) (hpage : a.page = some p)
    (hmem : p ∈ ord) :
    ∃ ord', blocks s a = Except.ok { s with order := some ord' } ∧
      ord'.length = ord.length ∧
      (∀ x, x ∈ ord' ↔ x ∈ ord) ∧
      ∃ rest i j, i ≤ rest.length ∧ j ≤ rest.length ∧
        ord = insertAt rest i p ∧ ord' = insertAt rest j p := by
  rcases strIdx_mem hmem with ⟨i0, hidx, hlt, hget⟩
  have hjs : jsIndexOf ord a.page = (i0 : Int) := by simp [jsIndexOf, hpage, hidx]
  have hstart : jsSpliceStart ord.length (i0 : Int) = i0 := by
    unfold jsSpliceStart
    split <;> omega
  have hlen_take : (ord.take i0).length = i0 := by
    rw [List.length_take]
    omega
  have hgetElem : ord[i0] = p := by
    rw [← hget]
    simp [List.get_eq_getElem]
  have hdecomp : ord = ord.take i0 ++ p :: ord.drop (i0 + 1) := by
    conv_lhs => rw [← List.take_append_drop i0 ord]
    rw [List.drop_eq_getElem_cons hlt, hgetElem]
  have hfirst : (ord.drop i0).take 1 = [p] := by
    rw [List.drop_eq_getElem_cons hlt, hgetElem]
    simp
  have hdel : jsSpliceDeleteOne ord (i0 : Int) = ([p], ord.take i0 ++ ord.drop (i0 + 1)) := by
    simp only [jsSpliceDeleteOne, hstart, hfirst]
  have hout : ord = insertAt (ord.take i0 ++ ord.drop (i0 + 1)) i0 p := by
    unfold insertAt
    rw [List.take_left' hlen_take, List.drop_left' hlen_take]
    exact hdecomp
  have hrestlen : (ord.take i0 ++ ord.drop (i0 + 1)).length + 1 = ord.length := by
    simp
    omega
  have hile : i0 ≤ (ord.take i0 ++ ord.drop (i0 + 1)).length := by
    simp
    omega
  have hjle : jsSpliceStart (ord.take i0 ++ ord.drop (i0 + 1)).length a.index ≤
      (ord.take i0 ++ ord.drop (i0 + 1)).length := jsSpliceStart_le _ _
  have hblocks : blocks s a = Except.ok { s with
      order := some (jsSpliceInsertList (ord.take i0 ++ ord.drop (i0 + 1)) a.index [p]) } := by
    simp [blocks, htype, hord, hjs, hdel]
  have hins : jsSpliceInsertList (ord.take i0 ++ ord.drop (i0 + 1)) a.index [p] =
      insertAt (ord.take i0 ++ ord.drop (i0 + 1))
        (jsSpliceStart (ord.take i0 ++ ord.drop (i0 + 1)).length a.index) p := by
    simp [jsSpliceInsertList, insertAt]
  refine ⟨insertAt (ord.take i0 ++ ord.drop (i0 + 1))
      (jsSpliceStart (ord.take i0 ++ ord.drop (i0 + 1)).length a.index) p,
    by rw [hblocks, hins], ?_, ?_,
    ord.take i0 ++ ord.drop (i0 + 1), i0,
    jsSpliceStart (ord.take i0 ++ ord.drop (i0 + 1)).length a.index,
    hile, hjle, hout, rfl⟩
  · rw [length_insertAt _ _ _ hjle, hrestlen]
  · intro x
    rw [mem_insertAt]
    conv_rhs => rw [hout]
    rw [mem_insertAt]

theorem blocks_move_page_witness :
    ∃ ord', blocks { order := some ["a", "b", "c"] }
        { type := "MOVE_PAGE", page := some "a", index := 1 } =
      Except.ok { order := some ord', isReordering := none } ∧
      ord'.length = (["a", "b", "c"] : List String).length ∧
      (∀ x, x ∈ ord' ↔ x ∈ (["a", "b", "c"] : List String)) ∧
      ∃ rest i j, i ≤ rest.length ∧ j ≤ rest.length ∧
        ["a", "b", "c"] = insertAt rest i "a" ∧ ord' = insertAt rest j "a" :=
  blocks_move_page { order := some ["a", "b", "c"] }
    { type := "MOVE_PAGE", page := some "a", index := 1 } ["a", "b", "c"] "a"
    rfl rfl rfl (by decide)


/-! ## Predecessor invariant machinery (C5, C8) -/

/-- The identifiers of a page's entries, in order. -/
def idsOf (seq : List AnimationEntry) : List (Option String) :=
  seq.map (fun e => e.id)

/-- Every present predecessor reference differs from the entry's own id
and is the id of some entry of the same sequence. -/
def seqOk (seq : List AnimationEntry) : Prop :=
  ∀ e ∈ seq, e.parent ≠ none → e.parent ≠ e.id ∧ e.parent ∈ idsOf seq

/-- Every page of the state satisfies `seqOk`. -/
def stateOk (s : AnimState) : Prop :=
  ∀ k : String, seqOk (getPage s.animationOrder k)

/-- States reachable from the initial empty state by dispatched actions. -/
inductive reachable : AnimState → Prop
  | init : reachable { animationOrder := [] }
  | step (s s' : AnimState) (a : Action) : reachable s →
      animations s a = Except.ok s' → reachable s'

lemma idsOf_modifyAt (l : List AnimationEntry) (i : Nat) (f : AnimationEntry → AnimationEntry)
    (hf : ∀ e, (f e).id = e.id) : idsOf (modifyAt l i f) = idsOf l :=
  map_modifyAt l i f _ hf

lemma idsOf_map (l : List AnimationEntry) (f : AnimationEntry → AnimationEntry)
    (hf : ∀ e, (f e).id = e.id) : idsOf (l.map f) = idsOf l := by
  simp [idsOf, List.map_map, Function.comp_def, hf]

lemma seqOk_of_pointwise {l l' : List AnimationEntry}
    (hids : idsOf l' = idsOf l)
    (hmem : ∀ e' ∈ l', (∃ e ∈ l, e'.id = e.id ∧ e'.parent = e.parent) ∨ e'.parent = none)
    (hs : seqOk l) : seqOk l' := by
  intro e' he' hp
  rcases hmem e' he' with ⟨e, he, hid, hpar⟩ | hnone
  · have h2 := hs e he (hpar ▸ hp)
    refine ⟨?_, ?_⟩
    · rw [hid, hpar]
      exact h2.1
    · rw [hids, hpar]
      exact h2.2
  · exact absurd hnone hp

lemma seqOk_modifyAt_keep {l : List AnimationEntry} {i : Nat}
    {f : AnimationEntry → AnimationEntry}
    (hid : ∀ e, (f e).id = e.id)
    (hpar : ∀ e, (f e).parent = e.parent ∨ (f e).parent = none)
    (hs : seqOk l) : seqOk (modifyAt l i f) := by
  refine seqOk_of_pointwise (idsOf_modifyAt _ _ _ hid) ?_ hs
  intro e' he'
  rcases mem_modifyAt he' with h | ⟨hlt, heq⟩
  · exact Or.inl ⟨e', h, rfl, rfl⟩
  · rcases hpar (l.get ⟨i, hlt⟩) with h | h
    · exact Or.inl ⟨l.get ⟨i, hlt⟩, l.get_mem _ _, heq ▸ hid _, heq ▸ h⟩
    · exact Or.inr (heq ▸ h)

lemma seqOk_map_keep {l : List AnimationEntry} {f : AnimationEntry → AnimationEntry}
    (hid : ∀ e, (f e).id = e.id)
    (hpar : ∀ e, (f e).parent = e.parent)
    (hs : seqOk l) : seqOk (l.map f) := by
  refine seqOk_of_pointwise (idsOf_map _ _ hid) ?_ hs
  intro e' he'
  rcases List.mem_map.mp he' with ⟨e, he, heq⟩
  exact Or.inl ⟨e, he, heq ▸ hid e, heq ▸ hpar e⟩

lemma seqOk_append {l : List AnimationEntry} {e : AnimationEntry}
    (he : e.parent = none ∨ (e.parent ≠ e.id ∧ e.parent ∈ idsOf l))
    (hs : seqOk l) : seqOk (l ++ [e]) := by
  intro x hx hp
  have hsub : ∀ y, y ∈ idsOf l → y ∈ idsOf (l ++ [e]) := by
    intro y hy
    simp only [idsOf, List.map_append] at hy ⊢
    exact List.mem_append_left _ hy
  rcases List.mem_append.mp hx with h | h
  · have h2 := hs x h hp
    exact ⟨h2.1, hsub _ h2.2⟩
  · have hxe : x = e := by simpa using h
    subst hxe
    rcases he with h0 | ⟨h1, h2⟩
    · exact absurd h0 hp
    · exact ⟨h1, hsub _ h2⟩

lemma seqOk_modify_parent {l : List AnimationEntry} {i : Nat} {t p : Option String}
    (hfind : entryIdx l t = some i)
    (hp : p = none ∨ (p ≠ t ∧ p ∈ idsOf l))
    (hs : seqOk l) : seqOk (modifyAt l i (fun e => { e with parent := p })) := by
  have hids : idsOf (modifyAt l i (fun e => { e with parent := p })) = idsOf l :=
    idsOf_modifyAt _ _ _ (fun e => rfl)
  intro x hx hxp
  rcases mem_modifyAt hx with h | ⟨hlt, hxeq⟩
  · have h2 := hs x h hxp
    exact ⟨h2.1, hids ▸ h2.2⟩
  · rcases entryIdx_get hfind with ⟨hlt2, hid⟩
    rcases hp with h0 | ⟨h1, h2⟩
    · rw [hxeq] at hxp
      exact absurd h0 hxp
    · refine ⟨?_, ?_⟩
      · rw [hxeq]
        show p ≠ (l.get ⟨i, hlt⟩).id
        have : (l.get ⟨i, hlt⟩).id = t := hid
        rw [this]
        exact h1
      · rw [hxeq]
        show p ∈ idsOf (modifyAt l i (fun e => { e with parent := p }))
        exact hids ▸ h2

lemma isValid_spec {s : AnimState} {page : String} {item predecessor : Option String}
    (h : isValidAnimationPredecessor s page item predecessor = true) :
    predecessor ≠ item ∧ predecessor ∈ idsOf (getPage s.animationOrder page) := by
  unfold isValidAnimationPredecessor at h
  cases predecessor with
  | none => simp at h
  | some q =>
    simp only [Bool.and_eq_true, decide_eq_true_eq, List.any_eq_true] at h
    rcases h with ⟨hne, e, he, hid⟩
    refine ⟨hne, ?_⟩
    simp only [idsOf, List.mem_map]
    exact ⟨e, he, by simpa using hid⟩

lemma successorLoop_ok {ip : Option String} :
    ∀ (keys : List (Option String)) (acc acc' : List AnimationEntry),
      successorLoop ip keys acc = Except.ok acc' →
      idsOf acc' = idsOf acc ∧ (seqOk acc → seqOk acc') := by
  intro keys
  induction keys with
  | nil =>
    intro acc acc' h
    simp only [successorLoop, Except.ok.injEq] at h
    subst h
    exact ⟨rfl, id⟩
  | cons key rest ih =>
    intro acc acc' h
    simp only [successorLoop] at h
    cases hidx : entryIdx acc key with
    | none =>
      rw [hidx] at h
      exact ih acc acc' h
    | some j =>
      rw [hidx] at h
      cases ip with
      | none => exact absurd h (by simp)
      | some q =>
        rcases ih _ _ h with ⟨hids, hok⟩
        refine ⟨hids.trans (idsOf_modifyAt _ _ _ (fun e => rfl)), fun hs => ?_⟩
        exact hok (seqOk_modifyAt_keep (fun e => rfl) (fun e => Or.inr rfl) hs)




lemma idsOf_modifyAt_parent (l : List AnimationEntry) (i : Nat) (p : Option String) :
    idsOf (modifyAt l i (fun e => { e with parent := p })) = idsOf l :=
  idsOf_modifyAt l i _ (fun _ => rfl)

lemma idsOf_modifyAt_type (l : List AnimationEntry) (i : Nat) (t : Option String) :
    idsOf (modifyAt l i (fun e => { e with animationType := t })) = idsOf l :=
  idsOf_modifyAt l i _ (fun _ => rfl)

lemma idsOf_modifyAt_duration (l : List AnimationEntry) (i : Nat) (d : Option Int) :
    idsOf (modifyAt l i (fun e => { e with duration := d })) = idsOf l :=
  idsOf_modifyAt l i _ (fun _ => rfl)

lemma idsOf_modifyAt_delay (l : List AnimationEntry) (i : Nat) (d : Option Int) :
    idsOf (modifyAt l i (fun e => { e with delay := d })) = idsOf l :=
  idsOf_modifyAt l i _ (fun _ => rfl)

lemma idsOf_modifyAt_status (l : List AnimationEntry) (i : Nat) (st : Option AnimationStatus) :
    idsOf (modifyAt l i (fun e => { e with status := st })) = idsOf l :=
  idsOf_modifyAt l i _ (fun _ => rfl)

lemma idsOf_map_status (l : List AnimationEntry) (g : AnimationEntry → Option AnimationStatus) :
    idsOf (l.map (fun e => { e with status := g e })) = idsOf l :=
  idsOf_map l _ (fun _ => rfl)

lemma seqOk_modifyAt_type (l : List AnimationEntry) (i : Nat) (t : Option String)
    (hs : seqOk l) : seqOk (modifyAt l i (fun e => { e with animationType := t })) :=
  seqOk_modifyAt_keep (fun _ => rfl) (fun _ => Or.inl rfl) hs

lemma seqOk_modifyAt_duration (l : List AnimationEntry) (i : Nat) (d : Option Int)
    (hs : seqOk l) : seqOk (modifyAt l i (fun e => { e with duration := d })) :=
  seqOk_modifyAt_keep (fun _ => rfl) (fun _ => Or.inl rfl) hs

lemma seqOk_modifyAt_delay (l : List AnimationEntry) (i : Nat) (d : Option Int)
    (hs : seqOk l) : seqOk (modifyAt l i (fun e => { e with delay := d })) :=
  seqOk_modifyAt_keep (fun _ => rfl) (fun _ => Or.inl rfl) hs

lemma seqOk_modifyAt_status (l : List AnimationEntry) (i : Nat) (st : Option AnimationStatus)
    (hs : seqOk l) : seqOk (modifyAt l i (fun e => { e with status := st })) :=
  seqOk_modifyAt_keep (fun _ => rfl) (fun _ => Or.inl rfl) hs

lemma seqOk_map_status (l : List AnimationEntry) (g : AnimationEntry → Option AnimationStatus)
    (hs : seqOk l) : seqOk (l.map (fun e => { e with status := g e })) :=
  seqOk_map_keep (fun _ => rfl) (fun _ => rfl) hs

lemma idsOf_append_sub (l : List AnimationEntry) (e : AnimationEntry) :
    ∀ x, x ∈ idsOf l → x ∈ idsOf (l ++ [e]) := by
  intro x hx
  simp only [idsOf, List.map_append]
  exact List.mem_append_left _ hx

/-- Per-page effect of one successful `animations` step: on every page the
set of entry ids only grows, and `seqOk` is preserved. -/
lemma animations_step_page {s s' : AnimState} {a : Action}
    (hok : animations s a = Except.ok s') (k : String) :
    (∀ x, x ∈ idsOf (getPage s.animationOrder k) → x ∈ idsOf (getPage s'.animationOrder k)) ∧
      (seqOk (getPage s.animationOrder k) → seqOk (getPage s'.animationOrder k)) := by
  have base : ∀ v : List AnimationEntry,
      s' = ⟨setPage s.animationOrder (jsKey a.page) v⟩ →
      (∀ x, x ∈ idsOf (getPage s.animationOrder (jsKey a.page)) → x ∈ idsOf v) →
      (seqOk (getPage s.animationOrder (jsKey a.page)) → seqOk v) →
      (∀ x, x ∈ idsOf (getPage s.animationOrder k) →
          x ∈ idsOf (getPage s'.animationOrder k)) ∧
        (seqOk (getPage s.animationOrder k) → seqOk (getPage s'.animationOrder k)) := by
    intro v hs' hids hok2
    subst hs'
    show (∀ x, x ∈ idsOf (getPage s.animationOrder k) →
        x ∈ idsOf (getPage (setPage s.animationOrder (jsKey a.page) v) k)) ∧
      (seqOk (getPage s.animationOrder k) →
        seqOk (getPage (setPage s.animationOrder (jsKey a.page) v) k))
    rw [getPage_setPage]
    by_cases hk : k = jsKey a.page
    · rw [if_pos hk, hk]
      exact ⟨hids, hok2⟩
    · rw [if_neg hk]
      exact ⟨fun x hx => hx, id⟩
  simp only [animations] at hok
  split at hok
  · -- ADD_ANIMATION
    rw [Except.ok.injEq] at hok
    split at hok
    · next i hfind =>
        split at hok
        · next hval =>
            refine base _ hok.symm ?_ ?_
            · intro x hx
              rw [idsOf_modifyAt_parent]
              exact hx
            · exact seqOk_modify_parent hfind (Or.inr (isValid_spec hval))
        · next hval =>
            refine base _ hok.symm ?_ ?_
            · intro x hx
              rw [idsOf_modifyAt_parent]
              exact hx
            · exact seqOk_modify_parent hfind (Or.inl rfl)
    · next hfind =>
        split at hok
        · next hval =>
            refine base _ hok.symm (idsOf_append_sub _ _) ?_
            exact fun hs2 => seqOk_append (Or.inr (isValid_spec hval)) hs2
        · next hval =>
            refine base _ hok.symm (idsOf_append_sub _ _) ?_
            exact fun hs2 => seqOk_append (Or.inl rfl) hs2
  · -- not ADD
    split at hok
    · -- CHANGE_ANIMATION_TYPE
      split at hok
      · next i hfind =>
          split at hok
          · -- falsy animationType
            split at hok
            · next i2 hfind2 =>
                split at hok
                · next pao2 hloop =>
                    rw [Except.ok.injEq] at hok
                    rcases successorLoop_ok _ _ _ hloop with ⟨hids2, hok3⟩
                    refine base _ hok.symm ?_ ?_
                    · intro x hx
                      rw [hids2, idsOf_modifyAt_type]
                      exact hx
                    · intro hs2
                      exact hok3 (seqOk_modifyAt_type _ _ _ hs2)
                · exact absurd hok (by simp)
            · exact absurd hok (by simp)
          · -- truthy animationType
            rw [Except.ok.injEq] at hok
            refine base _ hok.symm ?_ ?_
            · intro x hx
              rw [idsOf_modifyAt_type]
              exact hx
            · exact seqOk_modifyAt_type _ _ _
      · next hfind =>
          rw [Except.ok.injEq] at hok
          refine base _ hok.symm (idsOf_append_sub _ _) ?_
          exact fun hs2 => seqOk_append (Or.inl rfl) hs2
    · -- not TYPE
      split at hok
      · -- CHANGE_ANIMATION_DURATION
        rw [Except.ok.injEq] at hok
        split at hok
        · next i hfind =>
            refine base _ hok.symm ?_ ?_
            · intro x hx
              rw [idsOf_modifyAt_duration]
              exact hx
            · exact seqOk_modifyAt_duration _ _ _
        · refine base _ hok.symm (fun x hx => hx) id
      · -- not DURATION
        split at hok
        · -- CHANGE_ANIMATION_DELAY
          rw [Except.ok.injEq] at hok
          split at hok
          · next i hfind =>
              refine base _ hok.symm ?_ ?_
              · intro x hx
                rw [idsOf_modifyAt_delay]
                exact hx
              · exact seqOk_modifyAt_delay _ _ _
          · refine base _ hok.symm (fun x hx => hx) id
        · -- not DELAY
          split at hok
          · -- PLAY_ANIMATION
            rw [Except.ok.injEq] at hok
            split at hok
            · split at hok
              · next i hfind =>
                  refine base _ hok.symm ?_ ?_
                  · intro x hx
                    rw [idsOf_modifyAt_status]
                    exact hx
                  · exact seqOk_modifyAt_status _ _ _
              · refine base _ hok.symm (fun x hx => hx) id
            · refine base _ hok.symm ?_ ?_
              · intro x hx
                rw [idsOf_map_status]
                exact hx
              · exact seqOk_map_status _ _
          · -- not PLAY
            split at hok
            · -- STOP_ANIMATION
              rw [Except.ok.injEq] at hok
              split at hok
              · split at hok
                · next i hfind =>
                    refine base _ hok.symm ?_ ?_
                    · intro x hx
                      rw [idsOf_modifyAt_status]
                      exact hx
                    · exact seqOk_modifyAt_status _ _ _
                · refine base _ hok.symm (fun x hx => hx) id
              · refine base _ hok.symm ?_ ?_
                · intro x hx
                  rw [idsOf_map_status]
                  exact hx
                · exact seqOk_map_status _ _
            · -- default
              rw [Except.ok.injEq] at hok
              subst hok
              exact ⟨fun x hx => hx, id⟩


lemma entryIdx_modifyAt_parent (l : List AnimationEntry) (i : Nat) (p t : Option String) :
    entryIdx (modifyAt l i (fun e => { e with parent := p })) t = entryIdx l t :=
  @entryIdx_map_id_eq l (fun e => { e with parent := p }) (fun _ => rfl) i t

lemma getD_append_self (l : List AnimationEntry) (e : AnimationEntry) (d : AnimationEntry) :
    (l ++ [e]).getD l.length d = e := by
  induction l with
  | nil => rfl
  | cons a rest ih => simp [ih]

/-- C5: every state reachable from the empty initial state satisfies the
predecessor invariant — each present `parent` reference differs from the
entry's own id and is the id of another entry of the same page's sequence —
and an `ADD_ANIMATION` whose predecessor fails the validity check stores
the item's entry with no predecessor instead. -/
theorem animations_predecessor_invariant :
    (∀ s, reachable s → stateOk s) ∧
    (∀ (s : AnimState) (a : Action), a.type = "ADD_ANIMATION" →
      isValidAnimationPredecessor s (jsKey a.page) a.item a.predecessor = false →
      ∀ s', animations s a = Except.ok s' →
        ∃ i, entryIdx (getPage s'.animationOrder (jsKey a.page)) a.item = some i ∧
          ((getPage s'.animationOrder (jsKey a.page)).getD i
            ({} : AnimationEntry)).parent = none) := by
  constructor
  · intro s hreach
    induction hreach with
    | init =>
      intro k e he _
      simp [getPage] at he
    | step s s' a hr hok ih =>
      intro k
      exact (animations_step_page hok k).2 (ih k)
  · intro s a htype hval s' hok
    simp only [animations, htype, hval] at hok
    simp only [Bool.false_eq_true, if_false, if_true, Except.ok.injEq] at hok
    subst hok
    rw [getPage_setPage, if_pos rfl]
    cases hfind : entryIdx (getPage s.animationOrder (jsKey a.page)) a.item with
    | some i =>
      simp only [hfind]
      rcases entryIdx_get hfind with ⟨hlt, hid⟩
      refine ⟨i, ?_, ?_⟩
      · rw [entryIdx_modifyAt_parent]
        exact hfind
      · rw [getD_modifyAt_self _ hlt]
    | none =>
      simp only [hfind]
      exact ⟨(getPage s.animationOrder (jsKey a.page)).length,
        entryIdx_append_of_none hfind _ rfl, by rw [getD_append_self]⟩

theorem animations_predecessor_invariant_witness :
    stateOk ⟨[("p", [{ id := some "x" }])]⟩ ∧
    (∃ i, entryIdx (getPage (⟨[("p", [{ id := some "x" }])]⟩ : AnimState).animationOrder "p")
        (some "x") = some i ∧
      ((getPage (⟨[("p", [{ id := some "x" }])]⟩ : AnimState).animationOrder "p").getD i
        ({} : AnimationEntry)).parent = none) :=
  ⟨animations_predecessor_invariant.1 ⟨[("p", [{ id := some "x" }])]⟩
    (reachable.step ⟨[]⟩ ⟨[("p", [{ id := some "x" }])]⟩
      { type := "ADD_ANIMATION", page := some "p", item := some "x",
        predecessor := some "x" } reachable.init rfl),
   animations_predecessor_invariant.2 ⟨[]⟩
    { type := "ADD_ANIMATION", page := some "p", item := some "x",
      predecessor := some "x" } rfl (by decide) ⟨[("p", [{ id := some "x" }])]⟩ rfl⟩

/-- C8: a successful `animations` step never removes an entry: every
entry id present on any page before the action is still present on that
page after it. -/
theorem animations_never_removes (s : AnimState) (a : Action) (s' : AnimState)
    (hok : animations s a = Except.ok s') :
    ∀ k x, x ∈ idsOf (getPage s.animationOrder k) →
      x ∈ idsOf (getPage s'.animationOrder k) := by
  intro k
  exact (animations_step_page hok k).1

theorem animations_never_removes_witness :
    some "a" ∈ idsOf (getPage
      [("p", [{ id := some "a", status := some AnimationStatus.stopped }])] "p") :=
  animations_never_removes ⟨[("p", [{ id := some "a" }])]⟩
    { type := "STOP_ANIMATION", page := some "p" }
    ⟨[("p", [{ id := some "a", status := some AnimationStatus.stopped }])]⟩ rfl
    "p" (some "a") (by decide)

end AmpStories
